import Mathlib

/-!
Verification of the table-entry storage engine in pkg/simulator/entries/table.go.

The Go source is shallowly embedded: pointers become values, the in-place
mutation performed by an operation becomes a function from the old state to
the new state (returned in an Except for fallible operations), and the Go
map from string keys to rows becomes an association list whose keys are kept
duplicate-free by the operations themselves.  The SHA-1 digest used by
Table.entryKey is abstracted: the canonical key is modeled as the exact byte
stream fed to the incremental hash, so that two keys are equal in the model
precisely when the digested streams are equal (SHA-1 is treated as
collision-free).  Go byte slices become lists of naturals; the int32 prefix
length handled by writeHash is modeled by its unsigned 32-bit bit pattern,
on which the masking and shifting of the source acts identically.
-/

deriving instance DecidableEq for Except

namespace P4Entries

/-- Embeds p4api.CounterData: ByteCount and PacketCount (int64). -/
structure CounterData where
  byteCount : Int
  packetCount : Int
deriving DecidableEq

/-- Embeds p4api.MeterConfig (committed/peak rates and bursts, int64). -/
structure MeterConfig where
  cir : Int
  cburst : Int
  pir : Int
  pburst : Int
deriving DecidableEq

/-- Embeds p4api.MeterCounterData (per-color counter data). -/
structure MeterCounterData where
  green : Option CounterData
  yellow : Option CounterData
  red : Option CounterData
deriving DecidableEq

/-- Embeds the oneof payload of p4api.FieldMatch.  A protobuf oneof may be
left unpopulated, which the Go getters report as nil; constructor unset
models that state.  Byte slices are lists of naturals. -/
inductive FieldMatchPayload where
  | exact (value : List Nat)
  | lpm (value : List Nat) (prefixLen : Nat)
  | range (low high : List Nat)
  | ternary (value mask : List Nat)
  | optional (value : List Nat)
  | unset
deriving DecidableEq

/-- Embeds p4api.FieldMatch: a field ID plus the oneof payload. -/
structure FieldMatch where
  fieldId : Nat
  payload : FieldMatchPayload
deriving DecidableEq

/-- Embeds p4api.TableEntry.  The Go field Match is named matchFields here
(match is a Lean keyword); the action reference is abstracted to an opaque
numeric handle, which no code under verification inspects. -/
structure TableEntry where
  tableId : Nat
  matchFields : List FieldMatch
  priority : Int
  action : Option Nat
  isDefaultAction : Bool
  counterData : Option CounterData
  meterConfig : Option MeterConfig
  meterCounterData : Option MeterCounterData
deriving DecidableEq

/-- Embeds p4api.DirectCounterEntry. -/
structure DirectCounterEntry where
  tableEntry : TableEntry
  data : Option CounterData
deriving DecidableEq

/-- Embeds p4api.DirectMeterEntry. -/
structure DirectMeterEntry where
  tableEntry : TableEntry
  config : Option MeterConfig
  counterData : Option MeterCounterData
deriving DecidableEq

/-- Embeds p4info.MatchField as used by the source: a numeric ID (the sort
key of the canonical order), plus name and match type carried opaquely. -/
structure MatchFieldInfo where
  id : Nat
  name : String
  matchType : Nat
deriving DecidableEq

/-- Embeds the slice of p4info.Table consumed by the source: preamble ID and
name plus the ordered match-field descriptor list. -/
structure P4InfoTable where
  id : Nat
  name : String
  matchFields : List MatchFieldInfo
deriving DecidableEq

/-- Embeds Row: a table entry plus its mutable direct resources.  The Go
fields are pointers, so each can be nil: Option models that. -/
structure Row where
  entry : TableEntry
  counterData : Option CounterData
  meterConfig : Option MeterConfig
  meterData : Option MeterCounterData
deriving DecidableEq

/-- Embeds Table: schema descriptor, the map from canonical key to row
(modeled as an association list with duplicate-free keys), and the
distinguished default row. -/
structure Table where
  info : P4InfoTable
  rows : List (List Nat × Row)
  defaultRow : Option Row
deriving DecidableEq

/-- Embeds Tables: the registry mapping table IDs to tables. -/
structure Tables where
  tables : List (Nat × Table)
deriving DecidableEq

/-- Error kinds produced by the engine via the onos errors package:
errors.NewNotFound, errors.NewAlreadyExists and errors.NewInvalid.  Message
strings are not modeled. -/
inductive Err where
  | notFound
  | alreadyExists
  | invalid
deriving DecidableEq

/-- Embeds writeHash: the four bytes fed to the hash for an LPM prefix
length n, namely byte((n and 0xff0000) shr 24), byte((n and 0xff0000) shr 16),
byte((n and 0xff00) shr 8), byte(n and 0xff), exactly as in the source. -/
def writeHashBytes (n : Nat) : List Nat :=
  [(n &&& 0xff0000) >>> 24, (n &&& 0xff0000) >>> 16, (n &&& 0xff00) >>> 8, n &&& 0xff]

/-- Embeds the switch in Table.entryKey: the tagged byte run fed to the hash
for one field match.  An unpopulated oneof matches no case of the switch and
contributes nothing. -/
def payloadBytes : FieldMatchPayload → List Nat
  | .exact v => 0x01 :: v
  | .lpm v p => 0x02 :: (writeHashBytes p ++ v)
  | .range lo hi => 0x03 :: (lo ++ hi)
  | .ternary v m => 0x04 :: (m ++ v)
  | .optional v => 0x05 :: v
  | .unset => []

/-- Embeds the loop of Table.entryKey together with validateMatch: walk the
matches with their index, fail Invalid as soon as an index reaches the
schema field count, and otherwise accumulate the tagged payload bytes. -/
def entryKeyAux (schemaLen : Nat) : Nat → List FieldMatch → Except Err (List Nat)
  | _, [] => .ok []
  | i, m :: rest =>
    if i ≥ schemaLen then .error .invalid
    else
      match entryKeyAux schemaLen (i + 1) rest with
      | .error e => .error e
      | .ok bs => .ok (payloadBytes m.payload ++ bs)

/-- Embeds Table.entryKey.  The SHA-1 finalization is abstracted: the key is
the concatenated stream written to the hash (see the module comment). -/
def Table.entryKey (t : Table) (entry : TableEntry) : Except Err (List Nat) :=
  entryKeyAux t.info.matchFields.length 0 entry.matchFields

/-- Embeds sortFieldMatches: the stable sort of the field matches by field
ID.  The source uses sort.SliceStable; a stable sort by a fixed key is
unique, so the stable insertion sort is the same function. -/
def sortFieldMatches (ms : List FieldMatch) : List FieldMatch :=
  ms.insertionSort (fun a b => a.fieldId ≤ b.fieldId)

/-- The canonicalized form of an entry: sortFieldMatches is applied by the
source to entry.Match in place before key derivation, so the entry visible
from then on (including the one stored in a row) carries sorted matches. -/
def canonEntry (entry : TableEntry) : TableEntry :=
  { entry with matchFields := sortFieldMatches entry.matchFields }

/-- Embeds the stable sort of a schema's match-field descriptors performed
by Tables.NewTable (sort.SliceStable by descriptor ID, modeled as the stable
insertion sort, see sortFieldMatches). -/
def sortMatchFieldInfos (fs : List MatchFieldInfo) : List MatchFieldInfo :=
  fs.insertionSort (fun a b => a.id ≤ b.id)

/-- Lookup in the association list modeling the Go rows map (the first
binding wins; the operations keep keys duplicate-free). -/
def lookupRow : List (List Nat × Row) → List Nat → Option Row
  | [], _ => none
  | kv :: rest, key => if kv.1 = key then some kv.2 else lookupRow rest key

/-- Pointwise update at a key in the association list modeling the Go rows
map (the source mutates the looked-up row through its pointer). -/
def updateRow (rows : List (List Nat × Row)) (key : List Nat) (f : Row → Row) :
    List (List Nat × Row) :=
  rows.map (fun kv => if kv.1 = key then (kv.1, f kv.2) else kv)

/-- Embeds Table.newRow: counter data starts as the zero value but is
replaced by the entry's counter data when that is non-nil; meter config is
taken from the entry; meter counter data is taken from the entry when
non-nil and is nil otherwise. -/
def newRow (entry : TableEntry) : Row :=
  { entry := entry
    counterData :=
      match entry.counterData with
      | some cd => some cd
      | none => some { byteCount := 0, packetCount := 0 }
    meterConfig := entry.meterConfig
    meterData := entry.meterCounterData }

/-- Embeds the success-path assignments of Table.ModifyTableEntry (lines
setting row.entry, row.meterConfig, and conditionally row.counterData): the
counter data is overwritten only on a modify that carries counter data. -/
def updateRowFields (insert : Bool) (row : Row) (entry : TableEntry) : Row :=
  { row with
    entry := entry
    meterConfig := entry.meterConfig
    counterData :=
      if insert = false ∧ entry.counterData.isSome then entry.counterData
      else row.counterData }

/-- Embeds Table.ModifyTableEntry. -/
def Table.ModifyTableEntry (t : Table) (entry : TableEntry) (insert : Bool) :
    Except Err Table :=
  if entry.isDefaultAction then
    if insert then .error .invalid
    else if entry.matchFields.length > 0 then .error .invalid
    else .ok { t with defaultRow := some (newRow entry) }
  else
    let e := canonEntry entry
    match t.entryKey e with
    | .error err => .error err
    | .ok key =>
      match lookupRow t.rows key with
      | some row =>
        if insert then .error .alreadyExists
        else .ok { t with rows := updateRow t.rows key (fun _ => updateRowFields false row e) }
      | none =>
        if insert then
          .ok { t with rows := t.rows ++ [(key, updateRowFields true (newRow e) e)] }
        else .error .notFound

/-- Embeds Table.RemoveTableEntry: Invalid on a default-action entry, else
canonicalize, derive the key, and delete any row at that key. -/
def Table.RemoveTableEntry (t : Table) (entry : TableEntry) : Except Err Table :=
  if entry.isDefaultAction then .error .invalid
  else
    let e := canonEntry entry
    match t.entryKey e with
    | .error err => .error err
    | .ok key => .ok { t with rows := t.rows.filter (fun kv => kv.1 ≠ key) }

/-- Embeds Table.ModifyDirectCounterEntry: canonicalize, derive the key,
NotFound when absent, else overwrite only the row's counter data. -/
def Table.ModifyDirectCounterEntry (t : Table) (entry : DirectCounterEntry) :
    Except Err Table :=
  let e := canonEntry entry.tableEntry
  match t.entryKey e with
  | .error err => .error err
  | .ok key =>
    match lookupRow t.rows key with
    | none => .error .notFound
    | some _ =>
      .ok { t with rows := updateRow t.rows key (fun row => { row with counterData := entry.data }) }

/-- Embeds Table.ModifyDirectMeterEntry: canonicalize, derive the key,
NotFound when absent, else overwrite only the row's meter config. -/
def Table.ModifyDirectMeterEntry (t : Table) (entry : DirectMeterEntry) :
    Except Err Table :=
  let e := canonEntry entry.tableEntry
  match t.entryKey e with
  | .error err => .error err
  | .ok key =>
    match lookupRow t.rows key with
    | none => .error .notFound
    | some _ =>
      .ok { t with rows := updateRow t.rows key (fun row => { row with meterConfig := entry.config }) }

/-- Embeds Table.Size: the row count, plus one when the default row is
present. -/
def Table.Size (t : Table) : Nat :=
  match t.defaultRow with
  | some _ => t.rows.length + 1
  | none => t.rows.length

/-- Embeds Table.ID. -/
def Table.ID (t : Table) : Nat :=
  t.info.id

/-- Embeds Table.Name. -/
def Table.Name (t : Table) : String :=
  t.info.name

/-- Embeds Tables.NewTable.  The source sorts the caller-supplied
descriptor's MatchFields slice in place and stores the same pointer in the
new table; the returned pair is the new table together with the state of the
caller's descriptor after the call (the receiver is unused by the source). -/
def NewTable (info : P4InfoTable) : Table × P4InfoTable :=
  let mutated : P4InfoTable := { info with matchFields := sortMatchFieldInfos info.matchFields }
  ({ info := mutated, rows := [], defaultRow := none }, mutated)

/-- Lookup in the association list modeling the Go registry map. -/
def lookupTable (ts : Tables) (id : Nat) : Option Table :=
  (ts.tables.find? (fun kv => kv.1 = id)).map Prod.snd

/-- Pointwise replacement of a table in the registry, modeling mutation of
the table reached through the registry pointer. -/
def updateTable (ts : Tables) (id : Nat) (t : Table) : Tables :=
  { tables := ts.tables.map (fun kv => if kv.1 = id then (kv.1, t) else kv) }

/-- Embeds Tables.ModifyDirectCounterEntry: inserts are always Invalid,
unknown tables are NotFound, otherwise delegate. -/
def Tables.ModifyDirectCounterEntry (ts : Tables) (entry : DirectCounterEntry)
    (insert : Bool) : Except Err Tables :=
  if insert then .error .invalid
  else
    match lookupTable ts entry.tableEntry.tableId with
    | none => .error .notFound
    | some t =>
      match t.ModifyDirectCounterEntry entry with
      | .error err => .error err
      | .ok t2 => .ok (updateTable ts entry.tableEntry.tableId t2)

/-- Embeds Tables.ModifyDirectMeterEntry: inserts are always Invalid,
unknown tables are NotFound, otherwise delegate. -/
def Tables.ModifyDirectMeterEntry (ts : Tables) (entry : DirectMeterEntry)
    (insert : Bool) : Except Err Tables :=
  if insert then .error .invalid
  else
    match lookupTable ts entry.tableEntry.tableId with
    | none => .error .notFound
    | some t =>
      match t.ModifyDirectMeterEntry entry with
      | .error err => .error err
      | .ok t2 => .ok (updateTable ts entry.tableEntry.tableId t2)

/-- Embeds ReadType. -/
inductive ReadType where
  | readTableEntry
  | readDirectCounter
  | readDirectMeter
deriving DecidableEq

/-- Embeds p4api.Entity as produced by getEntry: one of the three entity
shapes built from a row. -/
inductive Entity where
  | tableEntry (entry : TableEntry)
  | directCounterEntry (tableEntry : TableEntry) (data : Option CounterData)
  | directMeterEntry (tableEntry : TableEntry) (config : Option MeterConfig)
      (counterData : Option MeterCounterData)
deriving DecidableEq

/-- Embeds getEntry: project a row into the entity shape selected by the
read type. -/
def getEntry (readType : ReadType) (row : Row) : Entity :=
  match readType with
  | .readDirectCounter => .directCounterEntry row.entry row.counterData
  | .readDirectMeter => .directMeterEntry row.entry row.meterConfig row.meterData
  | .readTableEntry => .tableEntry row.entry

/-- Embeds Table.tableEntryMatches: the permissive stub that reports every
stored entry as matching the request. -/
def tableEntryMatches (request : TableEntry) (entry : TableEntry) : Bool :=
  true

/-- Buffer capacity fixed by newBuffer (make with capacity 64). -/
def bufferCapacity : Nat := 64

/-- Embeds the entityBuffer protocol driving a read: the producing loop
calls sendEntity for each entity (append to the buffer; when the buffer
reaches capacity, invoke the sender with it and reset it, propagating a
sender error immediately), and after the loop a final flush sends whatever
remains, even an empty list.  The sender is modeled as a pure function
returning some error or none; the result pairs the list of batches actually
passed to the sender with the error the read returns. -/
def procEntities {ε : Type} (sender : List Entity → Option ε) :
    List Entity → List Entity → List (List Entity) × Option ε
  | buf, [] => ([buf], sender buf)
  | buf, e :: rest =>
    let buf2 := buf ++ [e]
    if buf2.length = bufferCapacity then
      match sender buf2 with
      | some err => ([buf2], some err)
      | none =>
        (buf2 :: (procEntities sender [] rest).1, (procEntities sender [] rest).2)
    else procEntities sender buf2 rest

/-- The entities produced by Table.ReadTableEntries before buffering: every
row passing the (permissive) match predicate, projected by read type, then
the default row when present.  Go map iteration order is unspecified; the
model uses the association-list order, on which no claim depends. -/
def Table.readEntities (t : Table) (request : TableEntry) (readType : ReadType) :
    List Entity :=
  (t.rows.filter (fun kv => tableEntryMatches request kv.2.entry)).map
      (fun kv => getEntry readType kv.2)
    ++ (match t.defaultRow with
        | some row => [getEntry readType row]
        | none => [])

/-- Embeds Table.ReadTableEntries: stream the produced entities through the
entity buffer.  The first component records the batches delivered to the
sender (the Go function's observable effect); the second is the returned
error. -/
def Table.ReadTableEntries {ε : Type} (t : Table) (request : TableEntry)
    (readType : ReadType) (sender : List Entity → Option ε) :
    List (List Entity) × Option ε :=
  procEntities sender [] (t.readEntities request readType)

/-- Modelled from the spec (section 4.4 Batch Read Pipeline), as the
reference behavior the buffered read is compared against: while at least a
full batch of entities remains, send exactly bufferCapacity of them and stop
at the first sender error; after the producing loop completes, a final flush
sends the remainder, even an empty list, and propagates its error. -/
def specRun {ε : Type} (sender : List Entity → Option ε) (items : List Entity) :
    List (List Entity) × Option ε :=
  if h : items.length < bufferCapacity then ([items], sender items)
  else
    match sender (items.take bufferCapacity) with
    | some err => ([items.take bufferCapacity], some err)
    | none =>
      (items.take bufferCapacity :: (specRun sender (items.drop bufferCapacity)).1,
       (specRun sender (items.drop bufferCapacity)).2)
termination_by items.length
decreasing_by
  simp only [List.length_drop, bufferCapacity] at *
  omega

/-! Helper lemmas about the association-list model of the rows map. -/

lemma lookupRow_eq_none_iff (rows : List (List Nat × Row)) (key : List Nat) :
    lookupRow rows key = none ↔ ∀ kv ∈ rows, kv.1 ≠ key := by
  induction rows with
  | nil => simp [lookupRow]
  | cons kv rest ih =>
    by_cases h : kv.1 = key
    · simp [lookupRow, h]
    · simp [lookupRow, h, ih]

lemma lookupRow_updateRow_self (rows : List (List Nat × Row)) (key : List Nat)
    (f : Row → Row) :
    lookupRow (updateRow rows key f) key = (lookupRow rows key).map f := by
  induction rows with
  | nil => simp [lookupRow, updateRow]
  | cons kv rest ih =>
    by_cases h : kv.1 = key
    · simp [lookupRow, updateRow, h]
    · simpa [lookupRow, updateRow, h] using ih

lemma lookupRow_updateRow_ne (rows : List (List Nat × Row)) (key other : List Nat)
    (f : Row → Row) (h : other ≠ key) :
    lookupRow (updateRow rows key f) other = lookupRow rows other := by
  induction rows with
  | nil => simp [lookupRow, updateRow]
  | cons kv rest ih =>
    by_cases hk : kv.1 = key
    · subst hk
      simpa [lookupRow, updateRow, Ne.symm h] using ih
    · by_cases ho : kv.1 = other
      · simp [lookupRow, updateRow, hk, ho, h]
      · simpa [lookupRow, updateRow, hk, ho] using ih

lemma lookupRow_append_absent (rows : List (List Nat × Row)) (key : List Nat)
    (r : Row) (h : lookupRow rows key = none) :
    lookupRow (rows ++ [(key, r)]) key = some r := by
  induction rows with
  | nil => simp [lookupRow]
  | cons kv rest ih =>
    by_cases hk : kv.1 = key
    · simp [lookupRow, hk] at h
    · simp [lookupRow, hk] at h ⊢
      exact ih h

lemma filter_ne_of_absent (rows : List (List Nat × Row)) (key : List Nat)
    (h : ∀ kv ∈ rows, kv.1 ≠ key) :
    rows.filter (fun kv => kv.1 ≠ key) = rows := by
  induction rows with
  | nil => rfl
  | cons kv rest ih =>
    have h1 : kv.1 ≠ key := h kv (by simp)
    have h2 : ∀ kv2 ∈ rest, kv2.1 ≠ key := fun kv2 hm => h kv2 (by simp [hm])
    simp [List.filter_cons, h1]
    exact fun a b hm => h2 (a, b) hm

lemma filter_ne_length_of_present (rows : List (List Nat × Row)) (key : List Nat)
    (row : Row) (hnd : (rows.map Prod.fst).Nodup)
    (h : lookupRow rows key = some row) :
    (rows.filter (fun kv => kv.1 ≠ key)).length + 1 = rows.length := by
  induction rows with
  | nil => simp [lookupRow] at h
  | cons kv rest ih =>
    simp only [List.map_cons, List.nodup_cons] at hnd
    by_cases hk : kv.1 = key
    · have habs : ∀ kv2 ∈ rest, kv2.1 ≠ key := by
        intro kv2 hm he
        exact hnd.1 (by rw [hk, ← he]; exact List.mem_map_of_mem Prod.fst hm)
      have hr := filter_ne_of_absent rest key habs
      have hp : (decide (kv.1 ≠ key) : Bool) = false := by simp [hk]
      rw [List.filter_cons, hp, if_neg Bool.false_ne_true, hr, List.length_cons]
    · have hl : lookupRow (kv :: rest) key = lookupRow rest key := by
        simp only [lookupRow]
        rw [if_neg hk]
      rw [hl] at h
      have hrec := ih hnd.2 h
      have hp : (decide (kv.1 ≠ key) : Bool) = true := by simp [hk]
      rw [List.filter_cons, hp, if_pos rfl, List.length_cons, List.length_cons]
      omega

/-! Helper lemmas about key derivation. -/

/-- The full byte stream fed to the hash for a list of field matches. -/
def keyBytes (ms : List FieldMatch) : List Nat :=
  (ms.map (fun m => payloadBytes m.payload)).flatten

lemma entryKeyAux_ok (schemaLen : Nat) (ms : List FieldMatch) :
    ∀ i, i + ms.length ≤ schemaLen → entryKeyAux schemaLen i ms = .ok (keyBytes ms) := by
  induction ms with
  | nil => intro i _; simp [entryKeyAux, keyBytes]
  | cons m rest ih =>
    intro i h
    simp only [List.length_cons] at h
    have hi : ¬ i ≥ schemaLen := by omega
    have := ih (i + 1) (by omega)
    simp [entryKeyAux, hi, this, keyBytes]

lemma keyBytes_insertIdx_unset (fm : FieldMatch) (hu : fm.payload = .unset) :
    ∀ (pos : Nat) (ms : List FieldMatch), pos ≤ ms.length →
      keyBytes (ms.insertIdx pos fm) = keyBytes ms := by
  intro pos
  induction pos with
  | zero => intro ms _; simp [keyBytes, List.insertIdx, hu, payloadBytes]
  | succ n ih =>
    intro ms h
    match ms with
    | [] => simp at h
    | m :: rest =>
      simp only [List.length_cons] at h
      simp [keyBytes, List.insertIdx] at ih ⊢
      exact ih rest (by omega)

lemma canonEntry_matchFields_length (e : TableEntry) :
    (canonEntry e).matchFields.length = e.matchFields.length := by
  simpa [canonEntry, sortFieldMatches] using
    (List.perm_insertionSort (fun a b : FieldMatch => a.fieldId ≤ b.fieldId)
      e.matchFields).length_eq

/-! Helper lemmas about the canonical sort. -/

instance : IsTotal FieldMatch (fun a b => a.fieldId ≤ b.fieldId) :=
  ⟨fun a b => Nat.le_total a.fieldId b.fieldId⟩

instance : IsTrans FieldMatch (fun a b => a.fieldId ≤ b.fieldId) :=
  ⟨fun _ _ _ hab hbc => Nat.le_trans hab hbc⟩

lemma sortFieldMatches_perm (ms : List FieldMatch) : (sortFieldMatches ms).Perm ms :=
  List.perm_insertionSort _ ms

lemma sortFieldMatches_sorted (ms : List FieldMatch) :
    List.Sorted (fun a b : FieldMatch => a.fieldId ≤ b.fieldId) (sortFieldMatches ms) :=
  List.sorted_insertionSort _ ms

lemma sortFieldMatches_strictSorted (ms : List FieldMatch)
    (hnd : (ms.map FieldMatch.fieldId).Nodup) :
    List.Pairwise (fun a b : FieldMatch => a.fieldId < b.fieldId) (sortFieldMatches ms) := by
  have hle := sortFieldMatches_sorted ms
  have hnds : ((sortFieldMatches ms).map FieldMatch.fieldId).Nodup :=
    (((sortFieldMatches_perm ms).map FieldMatch.fieldId).symm).nodup hnd
  have hne : List.Pairwise (fun a b : FieldMatch => a.fieldId ≠ b.fieldId)
      (sortFieldMatches ms) := List.pairwise_map.mp hnds
  exact (hle.and hne).imp (fun h => Nat.lt_of_le_of_ne h.1 h.2)

lemma sortFieldMatches_eq_of_perm (l1 l2 : List FieldMatch)
    (hp : l1.Perm l2) (hnd : (l1.map FieldMatch.fieldId).Nodup) :
    sortFieldMatches l1 = sortFieldMatches l2 := by
  haveI : IsAntisymm FieldMatch (fun a b : FieldMatch => a.fieldId < b.fieldId) :=
    ⟨fun _ _ h1 h2 => absurd h1 (Nat.lt_asymm h2)⟩
  have hps : (sortFieldMatches l1).Perm (sortFieldMatches l2) :=
    ((sortFieldMatches_perm l1).trans hp).trans (sortFieldMatches_perm l2).symm
  have hnd2 : (l2.map FieldMatch.fieldId).Nodup := ((hp.map FieldMatch.fieldId)).nodup hnd
  exact List.eq_of_perm_of_sorted hps
    (sortFieldMatches_strictSorted l1 hnd)
    (sortFieldMatches_strictSorted l2 hnd2)

/-! Helper lemmas about the byte encoding of the LPM prefix length. -/

lemma shiftRight_land (a b i : Nat) : (a &&& b) >>> i = (a >>> i) &&& (b >>> i) := by
  apply Nat.eq_of_testBit_eq
  intro j
  simp [Nat.testBit_shiftRight, Nat.testBit_land]

lemma land_two_pow_sub_one (p k : Nat) : p &&& (2 ^ k - 1) = p % 2 ^ k := by
  apply Nat.eq_of_testBit_eq
  intro j
  simp [Nat.testBit_land, Nat.testBit_mod_two_pow, Nat.testBit_two_pow_sub_one,
    Bool.and_comm]

lemma land_ff (p : Nat) : p &&& 0xff = p % 256 := by
  have h := land_two_pow_sub_one p 8
  norm_num at h
  exact h

/-- The four bytes actually emitted by writeHash, in plain div-mod form: the
first is constantly zero and the top byte of the prefix length is dropped. -/
lemma writeHashBytes_eq (p : Nat) :
    writeHashBytes p = [0, p / 65536 % 256, p / 256 % 256, p % 256] := by
  have h0 : (p &&& 0xff0000) >>> 24 = 0 := by
    have hle : p &&& 0xff0000 ≤ 0xff0000 := Nat.and_le_right
    rw [Nat.shiftRight_eq_div_pow]
    exact Nat.div_eq_of_lt (lt_of_le_of_lt hle (by norm_num))
  have hc1 : (0xff0000 : Nat) >>> 16 = 0xff := by decide
  have hc2 : (0xff00 : Nat) >>> 8 = 0xff := by decide
  have h1 : (p &&& 0xff0000) >>> 16 = p / 65536 % 256 := by
    rw [shiftRight_land, hc1, land_ff, Nat.shiftRight_eq_div_pow]
  have h2 : (p &&& 0xff00) >>> 8 = p / 256 % 256 := by
    rw [shiftRight_land, hc2, land_ff, Nat.shiftRight_eq_div_pow]
  have h3 : p &&& 0xff = p % 256 := land_ff p
  rw [writeHashBytes, h0, h1, h2, h3]

/-- Characterization of Table.ModifyTableEntry on non-default entries,
obtained by unfolding the definition past the default-action test. -/
lemma ModifyTableEntry_nondefault (t : Table) (e : TableEntry) (insert : Bool)
    (hd : e.isDefaultAction = false) :
    t.ModifyTableEntry e insert =
      (match t.entryKey (canonEntry e) with
      | .error err => .error err
      | .ok key =>
        match lookupRow t.rows key with
        | some row =>
          if insert then .error .alreadyExists
          else .ok { t with rows := updateRow t.rows key (fun _ => updateRowFields false row (canonEntry e)) }
        | none =>
          if insert then
            .ok { t with rows := t.rows ++ [(key, updateRowFields true (newRow (canonEntry e)) (canonEntry e))] }
          else .error .notFound) := by
  simp [Table.ModifyTableEntry, hd]

/-! Concrete fixtures used by witnesses and counterexamples. -/

/-- A two-field schema with field IDs 1 and 2. -/
def schema2 : P4InfoTable := ⟨1, "t1", [⟨1, "f1", 0⟩, ⟨2, "f2", 0⟩]⟩

/-- An empty table over schema2. -/
def tEmpty : Table := ⟨schema2, [], none⟩

/-- A single exact match on field 1. -/
def fmX : FieldMatch := ⟨1, .exact [10]⟩

/-- A plain non-default entry with the single match fmX. -/
def eX : TableEntry := ⟨1, [fmX], 0, some 1, false, none, none, none⟩

/-- The canonical key of eX in tEmpty. -/
def kX : List Nat := [1, 10]

/-- The row stored by a successful insert of eX. -/
def rX : Row := updateRowFields true (newRow (canonEntry eX)) (canonEntry eX)

/-- The table obtained from tEmpty by inserting eX. -/
def tX : Table := { tEmpty with rows := [(kX, rX)] }

/-- C1: insert/modify existence law for Table.ModifyTableEntry on
non-default entries: insert over an existing row fails AlreadyExists;
modify of an absent row fails NotFound; insert of an absent row stores a
new row at the derived key; and every success path stores the (canonically
sorted) incoming entry as the row's entry, so a lookup at the same key
yields it. -/
theorem c1_insert_modify_existence :
    (∀ (t : Table) (e : TableEntry) (k : List Nat) (row : Row),
      e.isDefaultAction = false →
      t.entryKey (canonEntry e) = .ok k →
      lookupRow t.rows k = some row →
      t.ModifyTableEntry e true = .error .alreadyExists)
  ∧ (∀ (t : Table) (e : TableEntry) (k : List Nat),
      e.isDefaultAction = false →
      t.entryKey (canonEntry e) = .ok k →
      lookupRow t.rows k = none →
      t.ModifyTableEntry e false = .error .notFound)
  ∧ (∀ (t : Table) (e : TableEntry) (k : List Nat),
      e.isDefaultAction = false →
      t.entryKey (canonEntry e) = .ok k →
      lookupRow t.rows k = none →
      t.ModifyTableEntry e true =
        .ok { t with rows := t.rows ++ [(k, updateRowFields true (newRow (canonEntry e)) (canonEntry e))] }
      ∧ lookupRow (t.rows ++ [(k, updateRowFields true (newRow (canonEntry e)) (canonEntry e))]) k
          = some (updateRowFields true (newRow (canonEntry e)) (canonEntry e))
      ∧ (updateRowFields true (newRow (canonEntry e)) (canonEntry e)).entry = canonEntry e)
  ∧ (∀ (t : Table) (e : TableEntry) (k : List Nat) (row : Row),
      e.isDefaultAction = false →
      t.entryKey (canonEntry e) = .ok k →
      lookupRow t.rows k = some row →
      t.ModifyTableEntry e false =
        .ok { t with rows := updateRow t.rows k (fun _ => updateRowFields false row (canonEntry e)) }
      ∧ lookupRow (updateRow t.rows k (fun _ => updateRowFields false row (canonEntry e))) k
          = some (updateRowFields false row (canonEntry e))
      ∧ (updateRowFields false row (canonEntry e)).entry = canonEntry e) := by
  refine ⟨?_, ?_, ?_, ?_⟩
  · intro t e k row hd hk hl
    rw [ModifyTableEntry_nondefault t e true hd, hk]
    simp [hl]
  · intro t e k hd hk hl
    rw [ModifyTableEntry_nondefault t e false hd, hk]
    simp [hl]
  · intro t e k hd hk hl
    refine ⟨?_, ?_, rfl⟩
    · rw [ModifyTableEntry_nondefault t e true hd, hk]
      simp [hl]
    · exact lookupRow_append_absent t.rows k _ hl
  · intro t e k row hd hk hl
    refine ⟨?_, ?_, rfl⟩
    · rw [ModifyTableEntry_nondefault t e false hd, hk]
      simp [hl]
    · rw [lookupRow_updateRow_self, hl]
      rfl

/-- Witness for c1_insert_modify_existence: all four branches exercised on
concrete tables and entries. -/
theorem c1_insert_modify_existence_witness :
    (eX.isDefaultAction = false
      ∧ tX.entryKey (canonEntry eX) = .ok kX
      ∧ lookupRow tX.rows kX = some rX
      ∧ tX.ModifyTableEntry eX true = .error .alreadyExists)
  ∧ (eX.isDefaultAction = false
      ∧ tEmpty.entryKey (canonEntry eX) = .ok kX
      ∧ lookupRow tEmpty.rows kX = none
      ∧ tEmpty.ModifyTableEntry eX false = .error .notFound)
  ∧ (tEmpty.ModifyTableEntry eX true =
        .ok { tEmpty with rows := tEmpty.rows ++ [(kX, updateRowFields true (newRow (canonEntry eX)) (canonEntry eX))] }
      ∧ lookupRow (tEmpty.rows ++ [(kX, updateRowFields true (newRow (canonEntry eX)) (canonEntry eX))]) kX
          = some (updateRowFields true (newRow (canonEntry eX)) (canonEntry eX))
      ∧ (updateRowFields true (newRow (canonEntry eX)) (canonEntry eX)).entry = canonEntry eX)
  ∧ (tX.ModifyTableEntry eX false =
        .ok { tX with rows := updateRow tX.rows kX (fun _ => updateRowFields false rX (canonEntry eX)) }
      ∧ lookupRow (updateRow tX.rows kX (fun _ => updateRowFields false rX (canonEntry eX))) kX
          = some (updateRowFields false rX (canonEntry eX))
      ∧ (updateRowFields false rX (canonEntry eX)).entry = canonEntry eX) :=
  ⟨⟨rfl, by decide, by decide,
      c1_insert_modify_existence.1 tX eX kX rX rfl (by decide) (by decide)⟩,
   ⟨rfl, by decide, by decide,
      c1_insert_modify_existence.2.1 tEmpty eX kX rfl (by decide) (by decide)⟩,
   c1_insert_modify_existence.2.2.1 tEmpty eX kX rfl (by decide) (by decide),
   c1_insert_modify_existence.2.2.2 tX eX kX rX rfl (by decide) (by decide)⟩

/-- An entry carrying explicit counter data, used to refute C2. -/
def eCD : TableEntry := ⟨1, [fmX], 0, some 1, false, some ⟨5, 7⟩, none, none⟩

/-- Counterexample to C2 as stated: inserting an entry that carries counter
data stores that counter data in the created row, not the zero value. -/
theorem c2_counterexample :
    (tEmpty.ModifyTableEntry eCD true).map
        (fun t => t.rows.map (fun kv => kv.2.counterData))
      = .ok [some ⟨5, 7⟩]
    ∧ (some (⟨5, 7⟩ : CounterData) ≠ some (⟨0, 0⟩ : CounterData)) := by
  constructor
  · decide
  · decide

/-- C2 (amended): a successful insert creates a row whose counter data is
the zero value when the incoming entry carries none and is the entry's
counter data otherwise; the meter config is copied from the entry; the
meter counter data is copied from the entry when present and absent
otherwise. -/
theorem c2_insert_fresh_overlays_amended :
    ∀ (t : Table) (e : TableEntry) (k : List Nat),
      e.isDefaultAction = false →
      t.entryKey (canonEntry e) = .ok k →
      lookupRow t.rows k = none →
      t.ModifyTableEntry e true =
        .ok { t with rows := t.rows ++ [(k, updateRowFields true (newRow (canonEntry e)) (canonEntry e))] }
      ∧ (updateRowFields true (newRow (canonEntry e)) (canonEntry e)).counterData
          = (match e.counterData with
             | some cd => some cd
             | none => some ⟨0, 0⟩)
      ∧ (updateRowFields true (newRow (canonEntry e)) (canonEntry e)).meterConfig
          = e.meterConfig
      ∧ (updateRowFields true (newRow (canonEntry e)) (canonEntry e)).meterData
          = e.meterCounterData := by
  intro t e k hd hk hl
  refine ⟨?_, ?_, rfl, rfl⟩
  · rw [ModifyTableEntry_nondefault t e true hd, hk]
    simp [hl]
  · simp [updateRowFields, newRow, canonEntry]

/-- Witness for c2_insert_fresh_overlays_amended: inserting the entry eCD
(which carries counter data) into the empty table. -/
theorem c2_insert_fresh_overlays_amended_witness :
    (eCD.isDefaultAction = false)
  ∧ (tEmpty.entryKey (canonEntry eCD) = .ok kX)
  ∧ (lookupRow tEmpty.rows kX = none)
  ∧ (tEmpty.ModifyTableEntry eCD true =
        .ok { tEmpty with rows := tEmpty.rows ++ [(kX, updateRowFields true (newRow (canonEntry eCD)) (canonEntry eCD))] }
      ∧ (updateRowFields true (newRow (canonEntry eCD)) (canonEntry eCD)).counterData
          = (match eCD.counterData with
             | some cd => some cd
             | none => some ⟨0, 0⟩)
      ∧ (updateRowFields true (newRow (canonEntry eCD)) (canonEntry eCD)).meterConfig
          = eCD.meterConfig
      ∧ (updateRowFields true (newRow (canonEntry eCD)) (canonEntry eCD)).meterData
          = eCD.meterCounterData) :=
  ⟨rfl, by decide, by decide,
    c2_insert_fresh_overlays_amended tEmpty eCD kX rfl (by decide) (by decide)⟩

/-- Two field matches that share field ID 1 but differ in payload. -/
def fmDupA : FieldMatch := ⟨1, .exact [0xAA]⟩

/-- Second field match with field ID 1, payload distinct from fmDupA. -/
def fmDupB : FieldMatch := ⟨1, .exact [0xBB]⟩

/-- An entry over tEmpty with two matches on the same field ID. -/
def eDupAB : TableEntry := ⟨1, [fmDupA, fmDupB], 0, some 1, false, none, none, none⟩

/-- The permutation of eDupAB. -/
def eDupBA : TableEntry := ⟨1, [fmDupB, fmDupA], 0, some 1, false, none, none, none⟩

/-- Counterexample to C3 as stated: the two match lists are permutations of
each other, yet after canonical sorting (which is stable and therefore
preserves the relative order of matches sharing field ID 1) the derived
keys differ. -/
theorem c3_counterexample :
    eDupAB.matchFields.Perm eDupBA.matchFields
    ∧ tEmpty.entryKey (canonEntry eDupAB) ≠ tEmpty.entryKey (canonEntry eDupBA) := by
  constructor
  · decide
  · decide

/-- C3 (amended): canonical-key determinism holds for match-field lists
whose field IDs are pairwise distinct (so that the stable sort has a unique
sorted arrangement); and key derivation never reads the entry's priority:
two entries with identical match-field lists derive identical keys whatever
their other fields. -/
theorem c3_key_determinism_amended :
    (∀ (t : Table) (e1 e2 : TableEntry),
      e1.matchFields.Perm e2.matchFields →
      (e1.matchFields.map FieldMatch.fieldId).Nodup →
      t.entryKey (canonEntry e1) = t.entryKey (canonEntry e2))
  ∧ (∀ (t : Table) (e1 e2 : TableEntry),
      e1.matchFields = e2.matchFields →
      t.entryKey e1 = t.entryKey e2) := by
  constructor
  · intro t e1 e2 hp hnd
    have hs : sortFieldMatches e1.matchFields = sortFieldMatches e2.matchFields :=
      sortFieldMatches_eq_of_perm _ _ hp hnd
    simp [Table.entryKey, canonEntry, hs]
  · intro t e1 e2 h
    simp [Table.entryKey, h]

/-- Entry with matches on fields 2 and 1, in that order. -/
def ePerm21 : TableEntry :=
  ⟨1, [⟨2, .exact [2]⟩, ⟨1, .exact [1]⟩], 0, some 1, false, none, none, none⟩

/-- The same matches in the opposite order, and a different priority and
action. -/
def ePerm12 : TableEntry :=
  ⟨1, [⟨1, .exact [1]⟩, ⟨2, .exact [2]⟩], 5, some 2, false, none, none, none⟩

/-- ePerm12 with yet another priority, identical match fields. -/
def ePerm12p : TableEntry :=
  ⟨1, [⟨1, .exact [1]⟩, ⟨2, .exact [2]⟩], 9, some 2, false, none, none, none⟩

/-- Witness for c3_key_determinism_amended: a genuine permutation with
distinct field IDs, and a pure priority change. -/
theorem c3_key_determinism_amended_witness :
    (ePerm21.matchFields.Perm ePerm12.matchFields)
  ∧ ((ePerm21.matchFields.map FieldMatch.fieldId).Nodup)
  ∧ tEmpty.entryKey (canonEntry ePerm21) = tEmpty.entryKey (canonEntry ePerm12)
  ∧ tEmpty.entryKey ePerm12 = tEmpty.entryKey ePerm12p :=
  ⟨by decide, by decide,
    c3_key_determinism_amended.1 tEmpty ePerm21 ePerm12 (by decide) (by decide),
    c3_key_determinism_amended.2 tEmpty ePerm12 ePerm12p rfl⟩

/-- A payload-less field match (no oneof case populated). -/
def fmUnset : FieldMatch := ⟨7, .unset⟩

/-- Entry with the single match fmX (field 1, exact). -/
def eC4 : TableEntry := ⟨1, [fmX], 0, some 1, false, none, none, none⟩

/-- eC4 with fmUnset inserted in front: structurally distinct, same key. -/
def eC4u : TableEntry := ⟨1, [fmUnset, fmX], 0, some 1, false, none, none, none⟩

/-- C4: a payload-less field match contributes nothing to key derivation:
inserting it at any position of a schema-valid match list (the extended
list still within the schema's field count) leaves the canonical key
unchanged; consequently two structurally distinct non-default entries can
derive the same key, as eC4 and eC4u do. -/
theorem c4_payloadless_match_ignored :
    (∀ (t : Table) (e : TableEntry) (pos : Nat) (fm : FieldMatch),
      fm.payload = .unset →
      pos ≤ e.matchFields.length →
      e.matchFields.length + 1 ≤ t.info.matchFields.length →
      t.entryKey { e with matchFields := e.matchFields.insertIdx pos fm } = t.entryKey e)
  ∧ (tEmpty.entryKey eC4u = tEmpty.entryKey eC4 ∧ eC4u ≠ eC4) := by
  constructor
  · intro t e pos fm hu hpos hlen
    have hlen2 : (e.matchFields.insertIdx pos fm).length = e.matchFields.length + 1 :=
      List.length_insertIdx pos e.matchFields hpos
    have h1 : entryKeyAux t.info.matchFields.length 0 (e.matchFields.insertIdx pos fm)
        = .ok (keyBytes (e.matchFields.insertIdx pos fm)) :=
      entryKeyAux_ok _ _ 0 (by omega)
    have h2 : entryKeyAux t.info.matchFields.length 0 e.matchFields
        = .ok (keyBytes e.matchFields) :=
      entryKeyAux_ok _ _ 0 (by omega)
    have h3 : keyBytes (e.matchFields.insertIdx pos fm) = keyBytes e.matchFields :=
      keyBytes_insertIdx_unset fm hu pos e.matchFields hpos
    simp [Table.entryKey, h1, h2, h3]
  · constructor
    · decide
    · decide

/-- Witness for c4_payloadless_match_ignored: inserting fmUnset at position
0 of eC4's match list inside the two-field schema. -/
theorem c4_payloadless_match_ignored_witness :
    (fmUnset.payload = .unset)
  ∧ (0 ≤ eC4.matchFields.length)
  ∧ (eC4.matchFields.length + 1 ≤ tEmpty.info.matchFields.length)
  ∧ tEmpty.entryKey { eC4 with matchFields := eC4.matchFields.insertIdx 0 fmUnset }
      = tEmpty.entryKey eC4 :=
  ⟨rfl, by decide, by decide,
    c4_payloadless_match_ignored.1 tEmpty eC4 0 fmUnset rfl (by decide) (by decide)⟩

/-- Counterexample to C5 as stated: two LPM matches with equal value bytes
whose prefix lengths differ in bit 24 are fed identical byte sequences, so
the emitted four bytes are not the big-endian int32 encoding. -/
theorem c5_counterexample :
    payloadBytes (.lpm [0x0a] 0) = payloadBytes (.lpm [0x0a] 16777216)
    ∧ (0 : Nat) ≠ 16777216 := by
  constructor
  · decide
  · decide

/-- C5 (amended): for an LPM match the bytes fed to the hash are the tag
0x02, then four bytes of which the first is constantly zero and the rest
are the big-endian bytes of the low 24 bits of the prefix length, then the
raw value bytes; prefix lengths agreeing on their low 24 bits are fed
identical sequences, and prefix lengths below 2 to the 24 are distinguished
faithfully. -/
theorem c5_lpm_prefix_encoding_amended :
    (∀ p : Nat, writeHashBytes p = [0, p / 65536 % 256, p / 256 % 256, p % 256])
  ∧ (∀ (v : List Nat) (p q : Nat), p % 16777216 = q % 16777216 →
      payloadBytes (.lpm v p) = payloadBytes (.lpm v q))
  ∧ (∀ (v : List Nat) (p q : Nat), p < 16777216 → q < 16777216 →
      payloadBytes (.lpm v p) = payloadBytes (.lpm v q) → p = q) := by
  refine ⟨writeHashBytes_eq, ?_, ?_⟩
  · intro v p q h
    have hp := writeHashBytes_eq p
    have hq := writeHashBytes_eq q
    have h1 : p / 65536 % 256 = q / 65536 % 256 := by omega
    have h2 : p / 256 % 256 = q / 256 % 256 := by omega
    have h3 : p % 256 = q % 256 := by omega
    simp [payloadBytes, hp, hq, h1, h2, h3]
  · intro v p q hp hq heq
    simp only [payloadBytes, List.cons.injEq, true_and] at heq
    have hw : writeHashBytes p = writeHashBytes q :=
      (List.append_inj heq (by simp [writeHashBytes])).1
    rw [writeHashBytes_eq, writeHashBytes_eq] at hw
    simp only [List.cons.injEq] at hw
    omega

/-- Witness for c5_lpm_prefix_encoding_amended: prefix lengths 16777217 and
1 agree on their low 24 bits and are fed the same bytes; the
injectivity-below-2-to-24 part is instantiated at prefix length 24. -/
theorem c5_lpm_prefix_encoding_amended_witness :
    ((16777217 : Nat) % 16777216 = (1 : Nat) % 16777216
      ∧ payloadBytes (.lpm [3] 16777217) = payloadBytes (.lpm [3] 1))
  ∧ ((24 : Nat) < 16777216
      ∧ payloadBytes (.lpm [3] 24) = payloadBytes (.lpm [3] 24)
      ∧ (24 : Nat) = 24) :=
  ⟨⟨by decide, c5_lpm_prefix_encoding_amended.2.1 [3] 16777217 1 (by decide)⟩,
   ⟨by decide, rfl,
    c5_lpm_prefix_encoding_amended.2.2 [3] 24 24 (by decide) (by decide) rfl⟩⟩

/-- A valid default-action entry (no match fields). -/
def eDef : TableEntry := ⟨1, [], 0, some 3, true, none, none, none⟩

/-- A default-action entry carrying a match field. -/
def eDefBad : TableEntry := ⟨1, [fmX], 0, some 3, true, none, none, none⟩

/-- C6: the default-action contract of Table.ModifyTableEntry: insert of a
default-action entry fails Invalid; a default-action modify carrying match
fields fails Invalid; a valid default-action modify replaces the default
row with a fresh row built from the entry (discarding prior overlays) and
leaves Table.Size at exactly the non-default row count plus one, however
often it is repeated. -/
theorem c6_default_action_contract :
    (∀ (t : Table) (e : TableEntry),
      e.isDefaultAction = true →
      t.ModifyTableEntry e true = .error .invalid)
  ∧ (∀ (t : Table) (e : TableEntry),
      e.isDefaultAction = true →
      e.matchFields ≠ [] →
      t.ModifyTableEntry e false = .error .invalid)
  ∧ (∀ (t : Table) (e : TableEntry),
      e.isDefaultAction = true →
      e.matchFields = [] →
      t.ModifyTableEntry e false = .ok { t with defaultRow := some (newRow e) }
      ∧ Table.Size { t with defaultRow := some (newRow e) } = t.rows.length + 1) := by
  refine ⟨?_, ?_, ?_⟩
  · intro t e hd
    simp [Table.ModifyTableEntry, hd]
  · intro t e hd hm
    have hlen : 0 < e.matchFields.length := List.length_pos.mpr hm
    simp [Table.ModifyTableEntry, hd, hlen]
  · intro t e hd hm
    refine ⟨?_, rfl⟩
    simp [Table.ModifyTableEntry, hd, hm]

/-- Witness for c6_default_action_contract: all three branches at concrete
inputs, including repetition of the valid modify on its own result. -/
theorem c6_default_action_contract_witness :
    (eDef.isDefaultAction = true
      ∧ tEmpty.ModifyTableEntry eDef true = .error .invalid)
  ∧ (eDefBad.isDefaultAction = true ∧ eDefBad.matchFields ≠ []
      ∧ tEmpty.ModifyTableEntry eDefBad false = .error .invalid)
  ∧ (tEmpty.ModifyTableEntry eDef false
        = .ok { tEmpty with defaultRow := some (newRow eDef) }
      ∧ Table.Size { tEmpty with defaultRow := some (newRow eDef) }
          = tEmpty.rows.length + 1)
  ∧ (Table.ModifyTableEntry { tEmpty with defaultRow := some (newRow eDef) } eDef false
        = .ok { { tEmpty with defaultRow := some (newRow eDef) } with defaultRow := some (newRow eDef) }
      ∧ Table.Size { { tEmpty with defaultRow := some (newRow eDef) } with defaultRow := some (newRow eDef) }
          = ({ tEmpty with defaultRow := some (newRow eDef) } : Table).rows.length + 1) :=
  ⟨⟨rfl, c6_default_action_contract.1 tEmpty eDef rfl⟩,
   ⟨rfl, by decide, c6_default_action_contract.2.1 tEmpty eDefBad rfl (by decide)⟩,
   c6_default_action_contract.2.2 tEmpty eDef rfl rfl,
   c6_default_action_contract.2.2 { tEmpty with defaultRow := some (newRow eDef) } eDef rfl rfl⟩

/-- Characterization of Table.RemoveTableEntry on non-default entries. -/
lemma RemoveTableEntry_nondefault (t : Table) (e : TableEntry)
    (hd : e.isDefaultAction = false) :
    t.RemoveTableEntry e =
      (match t.entryKey (canonEntry e) with
      | .error err => .error err
      | .ok key => .ok { t with rows := t.rows.filter (fun kv => kv.1 ≠ key) }) := by
  simp [Table.RemoveTableEntry, hd]

/-- C7: remove idempotence and the remove/modify asymmetry: removing a
default-action entry fails Invalid; removing any schema-valid non-default
entry succeeds whether or not a row exists at the derived key; removing a
present row shrinks the row list by exactly one (given the duplicate-free
key invariant); removing an absent row leaves the table unchanged; and
removing twice equals removing once. -/
theorem c7_remove_idempotent_asymmetric :
    (∀ (t : Table) (e : TableEntry),
      e.isDefaultAction = true →
      t.RemoveTableEntry e = .error .invalid)
  ∧ (∀ (t : Table) (e : TableEntry),
      e.isDefaultAction = false →
      e.matchFields.length ≤ t.info.matchFields.length →
      t.RemoveTableEntry e =
        .ok { t with rows := t.rows.filter (fun kv => kv.1 ≠ keyBytes (canonEntry e).matchFields) })
  ∧ (∀ (t : Table) (e : TableEntry) (k : List Nat) (row : Row),
      t.entryKey (canonEntry e) = .ok k →
      lookupRow t.rows k = some row →
      (t.rows.map Prod.fst).Nodup →
      (t.rows.filter (fun kv => kv.1 ≠ k)).length + 1 = t.rows.length)
  ∧ (∀ (t : Table) (e : TableEntry) (k : List Nat),
      e.isDefaultAction = false →
      t.entryKey (canonEntry e) = .ok k →
      lookupRow t.rows k = none →
      t.RemoveTableEntry e = .ok t)
  ∧ (∀ (t t2 : Table) (e : TableEntry),
      t.RemoveTableEntry e = .ok t2 →
      t2.RemoveTableEntry e = .ok t2) := by
  refine ⟨?_, ?_, ?_, ?_, ?_⟩
  · intro t e hd
    simp [Table.RemoveTableEntry, hd]
  · intro t e hd hlen
    rw [RemoveTableEntry_nondefault t e hd]
    have hk : t.entryKey (canonEntry e) = .ok (keyBytes (canonEntry e).matchFields) := by
      apply entryKeyAux_ok
      rw [canonEntry_matchFields_length]
      omega
    rw [hk]
  · intro t e k row _ hl hnd
    exact filter_ne_length_of_present t.rows k row hnd hl
  · intro t e k hd hk hl
    rw [RemoveTableEntry_nondefault t e hd, hk]
    have habs : ∀ kv ∈ t.rows, kv.1 ≠ k := (lookupRow_eq_none_iff t.rows k).mp hl
    show Except.ok { t with rows := t.rows.filter (fun kv => kv.1 ≠ k) } = Except.ok t
    rw [filter_ne_of_absent t.rows k habs]
  · intro t t2 e h
    by_cases hd : e.isDefaultAction = true
    · simp [Table.RemoveTableEntry, hd] at h
    · have hd2 : e.isDefaultAction = false := by
        cases hb : e.isDefaultAction
        · rfl
        · exact absurd hb hd
      rw [RemoveTableEntry_nondefault t e hd2] at h
      cases hk : t.entryKey (canonEntry e) with
      | error err => rw [hk] at h; simp at h
      | ok k =>
        rw [hk] at h
        simp only [Except.ok.injEq] at h
        subst h
        rw [RemoveTableEntry_nondefault _ e hd2]
        have hk2 : Table.entryKey
            { t with rows := t.rows.filter (fun kv => kv.1 ≠ k) } (canonEntry e) = .ok k := hk
        rw [hk2]
        simp [List.filter_filter]

/-- The table tX after removing its single row. -/
def tXr : Table := { tX with rows := [] }

/-- Witness for c7_remove_idempotent_asymmetric: all five branches at
concrete inputs. -/
theorem c7_remove_idempotent_asymmetric_witness :
    (tEmpty.RemoveTableEntry eDef = .error .invalid)
  ∧ (tX.RemoveTableEntry eX =
      .ok { tX with rows := tX.rows.filter (fun kv => kv.1 ≠ keyBytes (canonEntry eX).matchFields) })
  ∧ ((tX.rows.filter (fun kv => kv.1 ≠ kX)).length + 1 = tX.rows.length)
  ∧ (tEmpty.RemoveTableEntry eX = .ok tEmpty)
  ∧ (tXr.RemoveTableEntry eX = .ok tXr) :=
  ⟨c7_remove_idempotent_asymmetric.1 tEmpty eDef rfl,
   c7_remove_idempotent_asymmetric.2.1 tX eX rfl (by decide),
   c7_remove_idempotent_asymmetric.2.2.1 tX eX kX rX (by decide) (by decide) (by decide),
   c7_remove_idempotent_asymmetric.2.2.2.1 tEmpty eX kX rfl (by decide) (by decide),
   c7_remove_idempotent_asymmetric.2.2.2.2 tX tXr eX (by decide)⟩

/-- C8: direct-resource modification frame property: a direct-counter or
direct-meter modify fails NotFound when no row exists at the embedded
entry's key; on success it overwrites only the targeted overlay of the row
at that key, leaving the row's entry and remaining overlays and every other
row unchanged; and the registry rejects direct-resource inserts as Invalid
regardless of table. -/
theorem c8_direct_resource_frame :
    (∀ (t : Table) (de : DirectCounterEntry) (k : List Nat),
      t.entryKey (canonEntry de.tableEntry) = .ok k →
      lookupRow t.rows k = none →
      t.ModifyDirectCounterEntry de = .error .notFound)
  ∧ (∀ (t : Table) (de : DirectMeterEntry) (k : List Nat),
      t.entryKey (canonEntry de.tableEntry) = .ok k →
      lookupRow t.rows k = none →
      t.ModifyDirectMeterEntry de = .error .notFound)
  ∧ (∀ (t : Table) (de : DirectCounterEntry) (k : List Nat) (row : Row),
      t.entryKey (canonEntry de.tableEntry) = .ok k →
      lookupRow t.rows k = some row →
      t.ModifyDirectCounterEntry de =
        .ok { t with rows := updateRow t.rows k (fun r => { r with counterData := de.data }) }
      ∧ lookupRow (updateRow t.rows k (fun r => { r with counterData := de.data })) k
          = some { row with counterData := de.data }
      ∧ (∀ k2, k2 ≠ k →
          lookupRow (updateRow t.rows k (fun r => { r with counterData := de.data })) k2
            = lookupRow t.rows k2))
  ∧ (∀ (t : Table) (de : DirectMeterEntry) (k : List Nat) (row : Row),
      t.entryKey (canonEntry de.tableEntry) = .ok k →
      lookupRow t.rows k = some row →
      t.ModifyDirectMeterEntry de =
        .ok { t with rows := updateRow t.rows k (fun r => { r with meterConfig := de.config }) }
      ∧ lookupRow (updateRow t.rows k (fun r => { r with meterConfig := de.config })) k
          = some { row with meterConfig := de.config }
      ∧ (∀ k2, k2 ≠ k →
          lookupRow (updateRow t.rows k (fun r => { r with meterConfig := de.config })) k2
            = lookupRow t.rows k2))
  ∧ (∀ (ts : Tables) (de : DirectCounterEntry),
      Tables.ModifyDirectCounterEntry ts de true = .error .invalid)
  ∧ (∀ (ts : Tables) (de : DirectMeterEntry),
      Tables.ModifyDirectMeterEntry ts de true = .error .invalid) := by
  refine ⟨?_, ?_, ?_, ?_, ?_, ?_⟩
  · intro t de k hk hl
    simp [Table.ModifyDirectCounterEntry, hk, hl]
  · intro t de k hk hl
    simp [Table.ModifyDirectMeterEntry, hk, hl]
  · intro t de k row hk hl
    refine ⟨?_, ?_, ?_⟩
    · simp [Table.ModifyDirectCounterEntry, hk, hl]
    · rw [lookupRow_updateRow_self, hl]
      rfl
    · intro k2 hne
      exact lookupRow_updateRow_ne t.rows k k2 _ hne
  · intro t de k row hk hl
    refine ⟨?_, ?_, ?_⟩
    · simp [Table.ModifyDirectMeterEntry, hk, hl]
    · rw [lookupRow_updateRow_self, hl]
      rfl
    · intro k2 hne
      exact lookupRow_updateRow_ne t.rows k k2 _ hne
  · intro ts de
    rfl
  · intro ts de
    rfl

/-- A direct-counter entry addressing eX's key with fresh counter data. -/
def dcX : DirectCounterEntry := ⟨eX, some ⟨9, 9⟩⟩

/-- A direct-meter entry addressing eX's key with a fresh meter config. -/
def dmX : DirectMeterEntry := ⟨eX, some ⟨1, 2, 3, 4⟩, none⟩

/-- An empty registry. -/
def tsEmpty : Tables := ⟨[]⟩

/-- Witness for c8_direct_resource_frame: all six branches at concrete
inputs. -/
theorem c8_direct_resource_frame_witness :
    (tEmpty.ModifyDirectCounterEntry dcX = .error .notFound)
  ∧ (tEmpty.ModifyDirectMeterEntry dmX = .error .notFound)
  ∧ (tX.ModifyDirectCounterEntry dcX =
      .ok { tX with rows := updateRow tX.rows kX (fun r => { r with counterData := dcX.data }) })
  ∧ (lookupRow (updateRow tX.rows kX (fun r => { r with counterData := dcX.data })) kX
      = some { rX with counterData := dcX.data })
  ∧ (tX.ModifyDirectMeterEntry dmX =
      .ok { tX with rows := updateRow tX.rows kX (fun r => { r with meterConfig := dmX.config }) })
  ∧ (lookupRow (updateRow tX.rows kX (fun r => { r with meterConfig := dmX.config })) kX
      = some { rX with meterConfig := dmX.config })
  ∧ (Tables.ModifyDirectCounterEntry tsEmpty dcX true = .error .invalid)
  ∧ (Tables.ModifyDirectMeterEntry tsEmpty dmX true = .error .invalid) :=
  ⟨c8_direct_resource_frame.1 tEmpty dcX kX (by decide) (by decide),
   c8_direct_resource_frame.2.1 tEmpty dmX kX (by decide) (by decide),
   (c8_direct_resource_frame.2.2.1 tX dcX kX rX (by decide) (by decide)).1,
   (c8_direct_resource_frame.2.2.1 tX dcX kX rX (by decide) (by decide)).2.1,
   (c8_direct_resource_frame.2.2.2.1 tX dmX kX rX (by decide) (by decide)).1,
   (c8_direct_resource_frame.2.2.2.1 tX dmX kX rX (by decide) (by decide)).2.1,
   c8_direct_resource_frame.2.2.2.2.1 tsEmpty dcX,
   c8_direct_resource_frame.2.2.2.2.2 tsEmpty dmX⟩

/-! Helper lemmas relating the entity buffer to the spec-level batch run. -/

lemma specRun_low {ε : Type} (sender : List Entity → Option ε) (items : List Entity)
    (h : items.length < bufferCapacity) :
    specRun sender items = ([items], sender items) := by
  rw [specRun]
  simp [h]

lemma specRun_high {ε : Type} (sender : List Entity → Option ε) (items : List Entity)
    (h : ¬ items.length < bufferCapacity) :
    specRun sender items =
      (match sender (items.take bufferCapacity) with
      | some err => ([items.take bufferCapacity], some err)
      | none =>
        (items.take bufferCapacity :: (specRun sender (items.drop bufferCapacity)).1,
         (specRun sender (items.drop bufferCapacity)).2)) := by
  rw [specRun]
  simp [h]

lemma procEntities_cons {ε : Type} (sender : List Entity → Option ε)
    (buf : List Entity) (e : Entity) (rest : List Entity) :
    procEntities sender buf (e :: rest) =
      (if (buf ++ [e]).length = bufferCapacity then
        (match sender (buf ++ [e]) with
        | some err => ([buf ++ [e]], some err)
        | none =>
          ((buf ++ [e]) :: (procEntities sender [] rest).1,
           (procEntities sender [] rest).2))
      else procEntities sender (buf ++ [e]) rest) := rfl

/-- The buffered send loop started on any partial buffer behaves as the
spec-level batch run on the buffered prefix followed by the items. -/
lemma procEntities_eq_specRun {ε : Type} (sender : List Entity → Option ε) :
    ∀ (items buf : List Entity), buf.length < bufferCapacity →
      procEntities sender buf items = specRun sender (buf ++ items) := by
  intro items
  induction items with
  | nil =>
    intro buf h
    rw [List.append_nil, specRun_low sender buf h]
    rfl
  | cons e rest ih =>
    intro buf h
    by_cases h64 : (buf ++ [e]).length = bufferCapacity
    · have hbuf : buf.length + 1 = bufferCapacity := by simpa using h64
      have hnl : ¬ (buf ++ e :: rest).length < bufferCapacity := by
        simp only [List.length_append, List.length_cons]
        omega
      have h1 : bufferCapacity - buf.length = 1 := by omega
      have htake : (buf ++ e :: rest).take bufferCapacity = buf ++ [e] := by
        rw [List.take_append_eq_append_take, List.take_of_length_le (by omega), h1]
        rfl
      have hdrop : (buf ++ e :: rest).drop bufferCapacity = rest := by
        rw [List.drop_append_eq_append_drop, List.drop_of_length_le (by omega), h1]
        rfl
      rw [procEntities_cons, if_pos h64, specRun_high sender _ hnl, htake, hdrop]
      have ihz : procEntities sender [] rest = specRun sender rest := by
        have := ih [] (by simp [bufferCapacity])
        simpa using this
      cases hs : sender (buf ++ [e]) with
      | some err => simp [hs]
      | none => simp [hs, ihz]
    · have hlb : (buf ++ [e]).length = buf.length + 1 := by simp
      have hlt : (buf ++ [e]).length < bufferCapacity := by
        rw [hlb] at h64 ⊢
        omega
      rw [procEntities_cons, if_neg h64, ih (buf ++ [e]) hlt]
      have hl : (buf ++ [e]) ++ rest = buf ++ e :: rest := by simp
      rw [hl]

/-- An anonymous non-default entry used to populate the 130-row table and
as the (ignored) read request. -/
def blankEntry : TableEntry := ⟨1, [], 0, none, false, none, none, none⟩

/-- A table holding 130 rows and no default row. -/
def table130 : Table :=
  ⟨⟨1, "t130", []⟩, (List.range 130).map (fun i => ([i], newRow blankEntry)), none⟩

/-- A sender that always succeeds. -/
def okSender : List Entity → Option Unit := fun _ => none

/-- C9: batch read buffering: Table.ReadTableEntries streams exactly as the
spec-level batch run specRun describes (full batches of bufferCapacity
entities, buffer reset after each flush, a sender error aborting the read
at that invocation, and a final flush of the remainder, even empty); in
particular reading a table of 130 rows with no default row through an
always-succeeding sender performs exactly 3 sender invocations with batch
sizes 64, 64 and 2. -/
theorem c9_batch_read_buffering :
    (∀ (ε : Type) (sender : List Entity → Option ε) (t : Table)
        (request : TableEntry) (readType : ReadType),
      t.ReadTableEntries request readType sender
        = specRun sender (t.readEntities request readType))
  ∧ ((table130.ReadTableEntries blankEntry .readTableEntry okSender).1.map List.length
        = [64, 64, 2]
    ∧ (table130.ReadTableEntries blankEntry .readTableEntry okSender).2 = none) := by
  constructor
  · intro ε sender t request readType
    have h := procEntities_eq_specRun sender (t.readEntities request readType) []
      (by simp [bufferCapacity])
    simpa [Table.ReadTableEntries] using h
  · constructor
    · decide
    · decide

/-- A descriptor whose match fields are listed out of ID order. -/
def infoC10 : P4InfoTable := ⟨1, "t1", [⟨2, "f2", 0⟩, ⟨1, "f1", 0⟩]⟩

/-- Counterexample to C10 as stated: NewTable does not leave the
caller-supplied descriptor unchanged; it reorders the descriptor's
match-field list in place (the model returns the descriptor's state after
the call as the second component). -/
theorem c10_counterexample :
    (NewTable infoC10).2 ≠ infoC10
    ∧ (NewTable infoC10).2.matchFields ≠ infoC10.matchFields := by
  constructor
  · decide
  · decide

instance : IsTotal MatchFieldInfo (fun a b => a.id ≤ b.id) :=
  ⟨fun a b => Nat.le_total a.id b.id⟩

instance : IsTrans MatchFieldInfo (fun a b => a.id ≤ b.id) :=
  ⟨fun _ _ _ hab hbc => Nat.le_trans hab hbc⟩

/-- C10 (amended): NewTable canonically orders the match-field list of the
caller-supplied descriptor itself, in place (no private copy is made: the
new table and the caller share the mutated descriptor); the descriptor's
other fields are untouched, and the new table starts with no rows and no
default row. -/
theorem c10_newtable_sorts_in_place_amended :
    ∀ info : P4InfoTable,
      (NewTable info).1.info = (NewTable info).2
      ∧ (NewTable info).2.matchFields = sortMatchFieldInfos info.matchFields
      ∧ (NewTable info).2.id = info.id
      ∧ (NewTable info).2.name = info.name
      ∧ (NewTable info).1.rows = []
      ∧ (NewTable info).1.defaultRow = none
      ∧ List.Pairwise (fun a b : MatchFieldInfo => a.id ≤ b.id)
          ((NewTable info).2.matchFields) := by
  intro info
  exact ⟨rfl, rfl, rfl, rfl, rfl, rfl,
    List.sorted_insertionSort (fun a b : MatchFieldInfo => a.id ≤ b.id) info.matchFields⟩

end P4Entries
